import Mathlib

/-!
Shallow embedding of the Cold-Storage billing engine
(`src/models/cs_tariff_rule.py`, `src/models/cs_storage_intake.py`,
`src/models/cs_stock_release.py`, `src/wizard/cs_monthly_billing_wizard.py`,
`src/wizard/cs_billing_intake_line.py`).

Odoo `Float`/`Monetary` fields are embedded as `ℚ` (an unset float field
reads as `0.0`), `Date` fields as `ℤ` (days since an epoch), `Datetime`
fields as `ℤ` (microseconds since the same epoch), `Many2one` references as
`ℕ` identifiers (`Option ℕ` when the field can be unset and the code tests
its truthiness), and `Selection` fields as small inductive types.
-/

/-- Python truthiness-based `or` on numbers: `a or b` yields `a` unless `a`
is falsy (equal to `0`), in which case it yields `b`. -/
def pyOr (a b : ℚ) : ℚ := if a = 0 then b else a

/-- Python `max(a, b)` on two numbers, written so that it evaluates (the
library `max` on `ℚ` is not kernel-reducible); it agrees with `max`
(`pyMax_eq_max`). -/
def pyMax (a b : ℚ) : ℚ := if a ≤ b then b else a

/-- Python `int(x)` on a number: truncation toward zero. -/
def pyInt (x : ℚ) : ℤ := if 0 ≤ x then ⌊x⌋ else ⌈x⌉

/-- Python floor division `a // b` on integers: the floor of the exact
quotient. -/
def pyFloorDiv (a b : ℤ) : ℤ := ⌊(a : ℚ) / (b : ℚ)⌋

/-- Round to the nearest integer, ties to the even neighbour — the rounding
used by Python 3's built-in `round`. -/
def roundHalfEven (q : ℚ) : ℤ :=
  if Int.fract q = 1/2 then (if ⌊q⌋ % 2 = 0 then ⌊q⌋ else ⌊q⌋ + 1) else round q

/-- Python `round(x, 2)`: round to two decimal places, ties to even. -/
def pyRound2 (x : ℚ) : ℚ := (roundHalfEven (x * 100) : ℚ) / 100

/-- Microseconds per day; `datetime` arithmetic in the source has
microsecond resolution. -/
def usPerDay : ℤ := 86400000000

/-- Python `datetime.date()`: the calendar day containing a timestamp,
i.e. the timestamp floor-divided by the (positive) number of microseconds
per day; `/` on `ℤ` rounds toward negative infinity for a positive
divisor. -/
def date_of_datetime (t : ℤ) : ℤ := t / usPerDay

/-- Python `datetime.combine(d, time.min)`: midnight starting day `d`. -/
def day_start (d : ℤ) : ℤ := d * usPerDay

/-- Python `datetime.combine(d, time.max)`: `23:59:59.999999` on day `d`. -/
def end_of_day (d : ℤ) : ℤ := d * usPerDay + 86399999999

/-- Billing basis selection of `cs.tariff.rule` / `cs.storage.intake.line`
(`basis` / `bill_basis`). -/
inductive BillBasis where
  | day_weight
  | day_volume
  | day_pallet
  | flat
deriving DecidableEq, Repr

/-- Rounding-policy selection of `cs.tariff.rule` (`rounding_policy`);
`two_h_step` stands for the source's `'2h_step'` key. -/
inductive RoundingPolicy where
  | ceil_day
  | half_up
  | exact_hours
  | two_h_step
deriving DecidableEq, Repr

/-- `cs.tariff.rule` (`src/models/cs_tariff_rule.py`).  Only the fields read
by `match_rule`, `compute_duration_days` and `compute_amount` are embedded.
`product_id` and `product_category_id` are `Many2one` fields whose
truthiness the code tests, hence `Option ℕ`; `min_temp`, `max_temp`,
`min_qty`, `price_unit` and `min_bill_days` are `Float`/`Monetary` fields
and read as `0.0` when unset. -/
structure CsTariffRule where
  sequence : ℤ
  basis : BillBasis
  product_category_id : Option ℕ
  product_id : Option ℕ
  min_temp : ℚ
  max_temp : ℚ
  min_qty : ℚ
  price_unit : ℚ
  rounding_policy : RoundingPolicy
  min_bill_days : ℚ
deriving DecidableEq, Repr

/-- The source guards both temperature filters with
`self.min_temp is not False` (resp. `max_temp`).  An Odoo `Float` field
always reads as a Python float (`0.0` when unset), and a float object is
never the object `False`, so the guard is identically true; it is recorded
here as the constant `True` so that the guard remains visible in
`match_rule`. -/
def float_field_is_not_False (_x : ℚ) : Prop := True

instance (x : ℚ) : Decidable (float_field_is_not_False x) := .isTrue True.intro

/-- `cs.storage.intake.line` (`src/models/cs_storage_intake.py`).
`intake_temperature_target` stands for `intake_id.temperature_target`, the
only field of the parent intake read by `match_rule`;
`amount_subtotal` is the stored value of the computed field
`_compute_amount`. -/
structure CsStorageIntakeLine where
  product_id : ℕ
  product_categ_id : ℕ
  intake_temperature_target : ℚ
  qty_in : ℚ
  qty_out : ℚ
  weight : ℚ
  volume : ℚ
  pallet_count : ℚ
  duration_hours : ℚ
  tariff_rule_id : Option CsTariffRule
  price_unit : ℚ
  bill_basis : Option BillBasis
  amount_subtotal : ℚ
deriving DecidableEq, Repr

/-- `CsTariffRule.match_rule` (`src/models/cs_tariff_rule.py`, lines
137-159): product filter, category filter, the two temperature filters
(guarded by the vacuous `is not False` test, see
`float_field_is_not_False`), and the quantity filter (guarded by the
truthiness of `min_qty`). -/
def match_rule (r : CsTariffRule) (line : CsStorageIntakeLine) : Bool :=
  if r.product_id ≠ none ∧ some line.product_id ≠ r.product_id then false
  else if r.product_category_id ≠ none ∧ some line.product_categ_id ≠ r.product_category_id then
    false
  else if float_field_is_not_False r.min_temp ∧ line.intake_temperature_target < r.min_temp then
    false
  else if float_field_is_not_False r.max_temp ∧ r.max_temp < line.intake_temperature_target then
    false
  else if r.min_qty ≠ 0 ∧ line.qty_in < r.min_qty then false
  else true

/-- `CsTariffRule.compute_duration_days` (`src/models/cs_tariff_rule.py`,
lines 161-181).  `ceil_day` is `max(1.0, (duration_hours + 23) // 24)`;
`2h_step` is `((int(duration_hours) + 1) // 2) * 2` hours.  The trailing
`else` branch of the source is unreachable: `rounding_policy` is a required
`Selection` over exactly these four keys. -/
def compute_duration_days (r : CsTariffRule) (duration_hours : ℚ) : ℚ :=
  match r.rounding_policy with
  | RoundingPolicy.ceil_day => pyMax 1 ((⌊(duration_hours + 23) / 24⌋ : ℤ) : ℚ)
  | RoundingPolicy.half_up =>
      let days := duration_hours / 24
      if 1/2 ≤ days then (if 1 ≤ days then 1 else 1/2) else 1/2
  | RoundingPolicy.exact_hours => pyRound2 (duration_hours / 24)
  | RoundingPolicy.two_h_step =>
      let hours_rounded := pyFloorDiv (pyInt duration_hours + 1) 2 * 2
      (hours_rounded : ℚ) / 24

/-- `CsTariffRule.compute_amount` (`src/models/cs_tariff_rule.py`, lines
183-240): billable quantity by basis (weight falls back to `qty_in`),
duration from `compute_duration_days` floored at `min_bill_days`; returns
`(amount, duration_days)`. -/
def compute_amount (r : CsTariffRule) (line : CsStorageIntakeLine) : ℚ × ℚ :=
  let billable_qty : ℚ :=
    match r.basis with
    | BillBasis.day_weight => pyOr line.weight (pyOr line.qty_in 0)
    | BillBasis.day_volume => pyOr line.volume 0
    | BillBasis.day_pallet => pyOr line.pallet_count 0
    | BillBasis.flat => 1
  let duration_days := pyMax (compute_duration_days r line.duration_hours) r.min_bill_days
  (r.price_unit * billable_qty * duration_days, duration_days)

/-- `cs.storage.intake` (`src/models/cs_storage_intake.py`).  `date_in` is a
required `Datetime`.

The billing wizard reads and writes `intake.last_billed_date`, but the
field's declaration is not among the model sources; it is
*modelled from the spec*: "a last-billed watermark date (nullable)" — a
nullable `Date`, hence `Option ℤ`. -/
structure CsStorageIntake where
  id : ℕ
  partner_id : ℕ
  date_in : ℤ
  last_billed_date : Option ℤ
  line_ids : List CsStorageIntakeLine
deriving DecidableEq, Repr

/-- `cs.stock.release.line._compute_amount_line`
(`src/models/cs_stock_release.py`, lines 286-305): pro-rata storage charge
`subtotal * qty_out / qty_in` when the intake line's `qty_in` is positive,
`0` otherwise.  The release line's `qty_out` and its intake line are the
inputs. -/
def compute_amount_line (intake_line : CsStorageIntakeLine) (qty_out : ℚ) : ℚ :=
  if 0 < intake_line.qty_in then
    intake_line.amount_subtotal * qty_out / intake_line.qty_in
  else 0

/-- Billing start used by `action_run_billing` and `_compute_amount_info`
(`src/wizard/cs_monthly_billing_wizard.py`, line 281):
`intake.last_billed_date or intake.date_in.date() if intake.date_in else
fields.Date.today()`.  `date_in` is required, so the conditional takes its
first branch, and a Python `date` object is always truthy, so the `or`
yields the watermark exactly when it is set. -/
def billing_start (k : CsStorageIntake) : ℤ :=
  match k.last_billed_date with
  | some w => w
  | none => date_of_datetime k.date_in

/-- `period_start_date` of `_calculate_period_amount`
(`src/wizard/cs_monthly_billing_wizard.py`, line 570):
`max(date_from, intake_start.date())`. -/
def period_start_date (k : CsStorageIntake) (date_from : ℤ) : ℤ :=
  max date_from (date_of_datetime k.date_in)

/-- `period_start` of `_calculate_period_amount` (lines 579-582): the exact
check-in timestamp when the period starts on the check-in day, otherwise
midnight of the period start day. -/
def period_start_dt (k : CsStorageIntake) (date_from : ℤ) : ℤ :=
  if period_start_date k date_from = date_of_datetime k.date_in then k.date_in
  else day_start (period_start_date k date_from)

/-- `period_duration` of `_calculate_period_amount` (lines 584-587):
`(period_end - period_start).total_seconds() / 86400` days, where
`period_end` is `23:59:59.999999` on `date_to`. -/
def period_duration_days (k : CsStorageIntake) (date_from date_to : ℤ) : ℚ :=
  ((end_of_day date_to - period_start_dt k date_from : ℤ) : ℚ) / (usPerDay : ℚ)

/-- Per-line `units` of `_calculate_period_amount` (lines 608-619) — the
same basis resolution as `compute_amount`.  The `else` branch
(`units = line.qty_in or 0`) is unreachable: the resolved basis is always
one of the four selection keys. -/
def line_period_units (line : CsStorageIntakeLine) (basis : BillBasis) : ℚ :=
  match basis with
  | BillBasis.day_weight => pyOr line.weight (pyOr line.qty_in 0)
  | BillBasis.day_volume => pyOr line.volume 0
  | BillBasis.day_pallet => pyOr line.pallet_count 0
  | BillBasis.flat => 1

/-- Per-line amount of `_calculate_period_amount` (lines 599-632): lines
without a tariff rule are skipped; basis and price fall back from the line
to the rule by Python truthiness; the period duration is floored at the
rule's `min_bill_days or 1.0`. -/
def line_period_amount (pd : ℚ) (line : CsStorageIntakeLine) : ℚ :=
  match line.tariff_rule_id with
  | none => 0
  | some r =>
      let basis := line.bill_basis.getD r.basis
      let price_unit := pyOr line.price_unit r.price_unit
      let units := line_period_units line basis
      let min_bill_days := pyOr r.min_bill_days 1
      let effective_duration := pyMax pd min_bill_days
      units * price_unit * effective_duration

/-- `CsMonthlyBillingWizard._calculate_period_amount`
(`src/wizard/cs_monthly_billing_wizard.py`, lines 551-637).  The guard
`if not intake.date_in: return 0` is unreachable (`date_in` is a required
`Datetime`); the two zero cases are `period_start_date > date_to` and a
non-positive period duration. -/
def calculate_period_amount (k : CsStorageIntake) (date_from date_to : ℤ) : ℚ :=
  if date_to < period_start_date k date_from then 0
  else if period_duration_days k date_from date_to ≤ 0 then 0
  else (k.line_ids.map (line_period_amount (period_duration_days k date_from date_to))).sum

/-- One entry of the `partner_data` dict built by `action_run_billing`
(lines 278-301): the customer, the intakes appended for it, and the
accumulated `total_amount`. -/
structure PartnerGroup where
  partner : ℕ
  intake_ids : List ℕ
  total : ℚ
deriving DecidableEq, Repr

/-- Appending one intake's period amount to `partner_data`: a Python dict
keeps insertion order, so a new customer is appended at the end and an
existing customer's entry is updated in place. -/
def add_to_partner_data (p i : ℕ) (amt : ℚ) : List PartnerGroup → List PartnerGroup
  | [] => [⟨p, [i], amt⟩]
  | g :: rest =>
      if g.partner = p then ⟨g.partner, g.intake_ids ++ [i], g.total + amt⟩ :: rest
      else g :: add_to_partner_data p i amt rest

/-- The `partner_data` grouping loop of `action_run_billing` (lines
279-301): an intake is skipped when `billing_start >= billing_end` or its
period amount is not positive; otherwise it is appended to its customer's
entry. -/
def build_partner_data (date_to : ℤ) : List CsStorageIntake → List PartnerGroup → List PartnerGroup
  | [], acc => acc
  | k :: rest, acc =>
      if date_to ≤ billing_start k then build_partner_data date_to rest acc
      else
        let amt := calculate_period_amount k (billing_start k) date_to
        if 0 < amt then
          build_partner_data date_to rest (add_to_partner_data k.partner_id k.id amt acc)
        else build_partner_data date_to rest acc

/-- `intake.last_billed_date = self.date_to` for one intake (line 313),
applied to the in-memory record set. -/
def advance_watermark (i : ℕ) (d : ℤ) (st : List CsStorageIntake) : List CsStorageIntake :=
  st.map fun k => if k.id = i then { k with last_billed_date := some d } else k

/-- The watermark-advance loop over one customer's intakes (lines
312-313). -/
def advance_group (ids : List ℕ) (d : ℤ) (st : List CsStorageIntake) : List CsStorageIntake :=
  ids.foldl (fun s i => advance_watermark i d s) st

/-- The invoice-creation loop of `action_run_billing` (lines 306-314) with
`create_invoices` enabled.  `ok p` tells whether the external
`account.move` creation for customer `p` succeeds; the loop has no
`try/except`, so a failure propagates immediately, carrying the record
state reached so far (`Except.error`); the watermarks of a customer's
intakes are written only after its invoice creation returns. -/
def run_invoice_loop (ok : ℕ → Bool) (date_to : ℤ) :
    List PartnerGroup → List CsStorageIntake →
    Except (ℕ × List CsStorageIntake) (List ℕ × List CsStorageIntake)
  | [], st => .ok ([], st)
  | g :: rest, st =>
      if 0 < g.total then
        if ok g.partner then
          match run_invoice_loop ok date_to rest (advance_group g.intake_ids date_to st) with
          | .ok (invs, stf) => .ok (g.partner :: invs, stf)
          | .error e => .error e
        else .error (g.partner, st)
      else run_invoice_loop ok date_to rest st

/-- The billing core of `CsMonthlyBillingWizard.action_run_billing` with
`create_invoices` enabled: group the selected intakes by customer, then
run the invoice-creation loop. -/
def action_run_billing_loop (ok : ℕ → Bool) (date_to : ℤ) (intakes : List CsStorageIntake) :
    Except (ℕ × List CsStorageIntake) (List ℕ × List CsStorageIntake) :=
  run_invoice_loop ok date_to (build_partner_data date_to intakes []) intakes

/-- Watermark of the intake with identifier `i` in a record-set state
(`none` when no such record exists). -/
def wm_of : List CsStorageIntake → ℕ → Option (Option ℤ)
  | [], _ => none
  | k :: rest, i => if k.id = i then some k.last_billed_date else wm_of rest i

/-- Lifecycle state of `cs.storage.intake` (`state` selection). -/
inductive IntakeState where
  | draft
  | checked_in
  | partially_out
  | closed
  | cancelled
deriving DecidableEq, Repr

/-- Lifecycle state of `cs.stock.release` (`state` selection). -/
inductive ReleaseState where
  | draft
  | done
  | cancelled
deriving DecidableEq, Repr

/-- One `cs.stock.release.line`, referring to its intake line by position
in the intake's `line_ids`. -/
structure ReleaseLineSpec where
  intake_line_index : ℕ
  qty_out : ℚ
deriving DecidableEq, Repr

/-- The body of the per-line loop of `CsStockRelease.action_validate`
(`src/models/cs_stock_release.py`, lines 124-144), acting on the intake's
state and lines: add the released quantity, fail when it exceeds `qty_in`,
and move a `checked_in` intake to `partially_out` only in the
partial-release branch (`new_qty_out < qty_in` and positive); a fully
released line (`new_qty_out >= qty_in`) falls into the `pass` branch and
changes no state.  A dangling line reference plays the role of the falsy
`if line.intake_line_id:` guard and is skipped. -/
def apply_release_line (st : IntakeState × List CsStorageIntakeLine) (r : ReleaseLineSpec) :
    Except String (IntakeState × List CsStorageIntakeLine) :=
  match st.2[r.intake_line_index]? with
  | none => .ok st
  | some l =>
      let new_qty_out := l.qty_out + r.qty_out
      if l.qty_in < new_qty_out then .error "Cannot release more than available quantity."
      else
        let lines2 := st.2.set r.intake_line_index { l with qty_out := new_qty_out }
        if l.qty_in ≤ new_qty_out then .ok (st.1, lines2)
        else if 0 < new_qty_out then
          if st.1 = IntakeState.checked_in then .ok (IntakeState.partially_out, lines2)
          else .ok (st.1, lines2)
        else .ok (st.1, lines2)

/-- `CsStockRelease.action_validate` (`src/models/cs_stock_release.py`,
lines 115-170) restricted to its effect on the intake: the draft check, the
non-empty-lines check, then the sequential per-line loop; an exception in
the loop aborts the action.  Stock moves and the final
`record.state = 'done'` touch only the release itself and collaborator
models. -/
def action_validate_release (release_state : ReleaseState) (rls : List ReleaseLineSpec)
    (st : IntakeState × List CsStorageIntakeLine) :
    Except String (IntakeState × List CsStorageIntakeLine) :=
  if release_state ≠ ReleaseState.draft then .error "Only draft releases can be validated."
  else if rls = [] then .error "Please add at least one release line."
  else rls.foldlM apply_release_line st

/-- `CsStorageIntake.action_close` (`src/models/cs_storage_intake.py`,
lines 207-219): only a `partially_out` intake may be closed, and only when
no line has `qty_out < qty_in`. -/
def action_close (st : IntakeState) (lines : List CsStorageIntakeLine) :
    Except String IntakeState :=
  if st ≠ IntakeState.partially_out then
    .error "Only partially released intakes can be closed."
  else if lines.any (fun l => decide (l.qty_out < l.qty_in)) then
    .error "Cannot close intake with unreleased items."
  else .ok IntakeState.closed

/-- The record-set state reached by the prefix of the invoice-creation loop
before a given group: every already-processed group with a positive total
had its intakes' watermarks advanced. -/
def prefix_advance (date_to : ℤ) (gs : List PartnerGroup) (st : List CsStorageIntake) :
    List CsStorageIntake :=
  gs.foldl (fun s g => if 0 < g.total then advance_group g.intake_ids date_to s else s) st

/-- All intake identifiers mentioned by a list of partner groups. -/
def all_intake_ids (gs : List PartnerGroup) : List ℕ :=
  (gs.map PartnerGroup.intake_ids).flatten

/-- A tariff rule with no product, category, temperature or quantity
filters (all the optional filter fields unset, i.e. at their falsy
defaults): per-kg-per-day at rate 2, `ceil_day` rounding, one minimum
billable day. -/
def rule_w : CsTariffRule :=
  { sequence := 10, basis := BillBasis.day_weight, product_category_id := none,
    product_id := none, min_temp := 0, max_temp := 0, min_qty := 0,
    price_unit := 2, rounding_policy := RoundingPolicy.ceil_day, min_bill_days := 1 }

/-- `rule_w` with the `exact_hours` rounding policy. -/
def rule_exact : CsTariffRule := { rule_w with rounding_policy := RoundingPolicy.exact_hours }

/-- `rule_w` with the `2h_step` rounding policy. -/
def rule_2h : CsTariffRule := { rule_w with rounding_policy := RoundingPolicy.two_h_step }

/-- An intake line of 100 kg (100 units) of a frozen product stored at
-18 °C, priced by `rule_w`; the line-level price and basis overrides are
unset. -/
def line_w : CsStorageIntakeLine :=
  { product_id := 1, product_categ_id := 1, intake_temperature_target := -18,
    qty_in := 100, qty_out := 0, weight := 100, volume := 0, pallet_count := 0,
    duration_hours := 0, tariff_rule_id := some rule_w, price_unit := 0,
    bill_basis := none, amount_subtotal := 0 }

/-- `line_w` stored at exactly 0 °C. -/
def line_w0 : CsStorageIntakeLine := { line_w with intake_temperature_target := 0 }

/-- A never-billed intake of customer 1, checked in exactly at the epoch
midnight (day 0). -/
def intake1 : CsStorageIntake :=
  { id := 1, partner_id := 1, date_in := 0, last_billed_date := none, line_ids := [line_w] }

/-- A never-billed intake of customer 2, checked in at the epoch. -/
def intake2 : CsStorageIntake :=
  { id := 2, partner_id := 2, date_in := 0, last_billed_date := none, line_ids := [line_w] }

/-- `intake1` after a billing run over `[0, 30]` advanced its watermark to
day 30. -/
def intake1b : CsStorageIntake := { intake1 with last_billed_date := some 30 }

/-- An intake line with `qty_in = 4` and a stored lifetime subtotal of
10. -/
def line_q4 : CsStorageIntakeLine := { line_w with qty_in := 4, amount_subtotal := 10 }

/-- An intake line whose `qty_in` was forced to 0, bypassing the model
constraint. -/
def line_q0 : CsStorageIntakeLine := { line_w with qty_in := 0, amount_subtotal := 10 }

/-- An unreleased intake line of 5 units. -/
def line_c10 : CsStorageIntakeLine := { line_w with qty_in := 5 }

/-- The integer floor division in `date_of_datetime` is the floor of the
exact rational quotient. -/
theorem date_of_datetime_eq_floor (t : ℤ) :
    date_of_datetime t = ⌊(t : ℚ) / (usPerDay : ℚ)⌋ := by
  have h := Rat.floor_intCast_div_natCast t 86400000000
  simp only [date_of_datetime, usPerDay]
  rw [show ((86400000000 : ℤ) : ℚ) = ((86400000000 : ℕ) : ℚ) by norm_num, h]
  norm_num

/-- `pyMax` is the lattice `max` on `ℚ`. -/
theorem pyMax_eq_max (a b : ℚ) : pyMax a b = max a b := by
  rw [pyMax]
  split_ifs with h
  · exact (max_eq_right h).symm
  · exact (max_eq_left (le_of_not_le h)).symm

/-- Midnight of the day containing a timestamp is not after it. -/
theorem day_start_date_of_le (t : ℤ) : day_start (date_of_datetime t) ≤ t := by
  rw [day_start, date_of_datetime_eq_floor]
  have hus : (0:ℚ) < (usPerDay : ℚ) := by norm_num [usPerDay]
  have h := Int.floor_le ((t : ℚ) / (usPerDay : ℚ))
  rw [le_div_iff₀ hus] at h
  exact_mod_cast h

/-- A timestamp precedes the midnight after its day. -/
theorem lt_day_start_succ (t : ℤ) : t < day_start (date_of_datetime t + 1) := by
  rw [day_start, date_of_datetime_eq_floor]
  have hus : (0:ℚ) < (usPerDay : ℚ) := by norm_num [usPerDay]
  have h := Int.lt_floor_add_one ((t : ℚ) / (usPerDay : ℚ))
  rw [div_lt_iff₀ hus] at h
  exact_mod_cast h

/-- C5.  The temperature filters of `match_rule` are **not** optional: an
Odoo `Float` field reads `0.0` when unset, and `0.0 is not False` is true
in Python, so a rule with no temperature filters still compares the
intake's target temperature against `0.0` and rejects any line stored
below zero.  `rule_w` has every optional filter unset, yet it rejects
`line_w` (target -18 °C) on the min-temperature check, while accepting the
same line at 0 °C. -/
theorem unset_temp_filter_rejects_negative :
    match_rule rule_w line_w = false ∧
    line_w.intake_temperature_target < rule_w.min_temp ∧
    rule_w.product_id = none ∧ rule_w.product_category_id = none ∧
    rule_w.min_qty = 0 ∧
    match_rule rule_w line_w0 = true := by
  refine ⟨by decide, by decide, rfl, rfl, rfl, by decide⟩

/-- C6.  Under `2h_step`, `compute_duration_days` truncates the elapsed
hours with `int()` before stepping, so 0.5 hours yields 0 days — not the
2/24 days promised by "rounded up to the next even integer" (and by the
source's own comment "Round up to next 2-hour block") — and the result can
fall below `hours/24`; 3 hours does yield 4/24 days. -/
theorem two_h_step_truncates_half_hour :
    compute_duration_days rule_2h (1/2) = 0 ∧
    compute_duration_days rule_2h (1/2) < (1/2) / 24 ∧
    compute_duration_days rule_2h 3 = 4/24 := by
  refine ⟨?_, ?_, ?_⟩ <;>
    norm_num [compute_duration_days, rule_2h, rule_w, pyFloorDiv, pyInt]

/-- C7 counterexample.  `ceil_day` computes `(hours + 23) // 24`, which is
not the ceiling of `hours/24` for fractional inputs: at 24.5 elapsed hours
the code bills 1 day while the ceiling is 2 days. -/
theorem ceil_day_fractional_cex :
    compute_duration_days rule_w (49/2) = 1 ∧
    ((⌈((49:ℚ)/2) / 24⌉ : ℤ) : ℚ) = 2 ∧
    compute_duration_days rule_w (49/2) ≠ max 1 ((⌈((49:ℚ)/2) / 24⌉ : ℤ) : ℚ) := by
  have hceil : (⌈((49:ℚ)/2) / 24⌉ : ℤ) = 2 := by
    rw [Int.ceil_eq_iff]
    norm_num
  have h1 : compute_duration_days rule_w (49/2) = 1 := by
    norm_num [compute_duration_days, rule_w, pyMax]
  refine ⟨h1, by rw [hceil]; norm_num, ?_⟩
  rw [h1, hceil]
  norm_num

/-- C8 counterexample.  `compute_duration_days` itself does not enforce
`min_bill_days`: under `exact_hours` a 0-hour span yields 0 days, strictly
below the rule's `min_bill_days` of 1 (the floor is applied later, in
`compute_amount`). -/
theorem duration_below_min_bill_days_cex :
    compute_duration_days rule_exact 0 < rule_exact.min_bill_days := by
  norm_num [compute_duration_days, rule_exact, rule_w, pyRound2, roundHalfEven,
    Int.fract, round_eq]

/-- The integer-style idiom `(n + 23) // 24` used by the `ceil_day` policy
computes the ceiling of `n/24` on whole-number inputs. -/
theorem floor_add23_div24 (n : ℤ) : ⌊((n : ℚ) + 23) / 24⌋ = ⌈(n : ℚ) / 24⌉ := by
  have h24 : (0:ℚ) < 24 := by norm_num
  have hc1 : (n : ℚ) / 24 ≤ (⌈(n : ℚ) / 24⌉ : ℚ) := Int.le_ceil _
  have hc2 : (⌈(n : ℚ) / 24⌉ : ℚ) < (n : ℚ) / 24 + 1 := Int.ceil_lt_add_one _
  rw [div_le_iff₀ h24] at hc1
  have hc2q : ((⌈(n : ℚ) / 24⌉ : ℚ) - 1) * 24 < (n : ℚ) := by
    have : (⌈(n : ℚ) / 24⌉ : ℚ) - 1 < (n : ℚ) / 24 := by linarith
    rw [lt_div_iff₀ h24] at this
    exact this
  have hi1 : n ≤ ⌈(n : ℚ) / 24⌉ * 24 := by exact_mod_cast hc1
  have hi2 : (⌈(n : ℚ) / 24⌉ - 1) * 24 < n := by exact_mod_cast hc2q
  rw [Int.floor_eq_iff]
  constructor
  · rw [le_div_iff₀ h24]
    have : (⌈(n : ℚ) / 24⌉ * 24 : ℤ) ≤ n + 23 := by omega
    exact_mod_cast this
  · rw [div_lt_iff₀ h24]
    have : (n + 23 : ℤ) < (⌈(n : ℚ) / 24⌉ + 1) * 24 := by omega
    exact_mod_cast this

/-- C7 (amended).  Under `ceil_day`, `compute_duration_days` returns
`max(1, (hours + 23) // 24)`: on whole-hour inputs this is the ceiling of
`hours/24` floored at 1 day, and 25 hours yields 2 days; for fractional
inputs the floor-division idiom can undershoot the ceiling (see
`ceil_day_fractional_cex`). -/
theorem ceil_day_formula (r : CsTariffRule)
    (hp : r.rounding_policy = RoundingPolicy.ceil_day) :
    (∀ n : ℤ, compute_duration_days r (n : ℚ) = max 1 ((⌈(n : ℚ) / 24⌉ : ℤ) : ℚ)) ∧
    (∀ h : ℚ, 1 ≤ compute_duration_days r h) ∧
    compute_duration_days r 25 = 2 := by
  refine ⟨?_, ?_, ?_⟩
  · intro n
    simp only [compute_duration_days, hp]
    rw [pyMax_eq_max, floor_add23_div24]
  · intro h
    simp only [compute_duration_days, hp]
    rw [pyMax_eq_max]
    exact le_max_left _ _
  · simp only [compute_duration_days, hp]
    rw [pyMax_eq_max]
    norm_num

/-- Witness for `ceil_day_formula` at the concrete rule `rule_w`. -/
theorem ceil_day_formula_witness :
    rule_w.rounding_policy = RoundingPolicy.ceil_day ∧
    ((∀ n : ℤ, compute_duration_days rule_w (n : ℚ) =
        max 1 ((⌈(n : ℚ) / 24⌉ : ℤ) : ℚ)) ∧
      (∀ h : ℚ, 1 ≤ compute_duration_days rule_w h) ∧
      compute_duration_days rule_w 25 = 2) :=
  ⟨rfl, ceil_day_formula rule_w rfl⟩

/-- The half-even rounding of `roundHalfEven` is within half a unit of its
argument. -/
theorem roundHalfEven_bounds (q : ℚ) :
    q - 1/2 ≤ (roundHalfEven q : ℚ) ∧ (roundHalfEven q : ℚ) ≤ q + 1/2 := by
  unfold roundHalfEven
  have hfr : q - (⌊q⌋ : ℚ) = Int.fract q := (Int.self_sub_floor q)
  split_ifs with h1 h2
  · rw [h1] at hfr
    constructor <;> linarith
  · rw [h1] at hfr
    constructor <;> push_cast <;> linarith
  · have habs := abs_sub_round q
    rw [abs_le] at habs
    constructor <;> linarith [habs.1, habs.2]

/-- `roundHalfEven` is monotone: rounding to the nearest integer preserves
order. -/
theorem roundHalfEven_mono {x y : ℚ} (hxy : x ≤ y) :
    roundHalfEven x ≤ roundHalfEven y := by
  by_contra hlt
  push_neg at hlt
  have hx := (roundHalfEven_bounds x).2
  have hy := (roundHalfEven_bounds y).1
  have hstep : (roundHalfEven y : ℚ) + 1 ≤ (roundHalfEven x : ℚ) := by
    exact_mod_cast Int.add_one_le_iff.mpr hlt
  have hyx : y ≤ x := by linarith
  have heq : x = y := le_antisymm hxy hyx
  rw [heq] at hstep
  linarith

/-- C8 (amended).  `compute_duration_days` is monotone non-decreasing in
the elapsed hours under every rounding policy, and the `min_bill_days`
floor is enforced by `compute_amount`, whose returned billable duration is
always at least the rule's `min_bill_days`; `compute_duration_days` alone
can return less than `min_bill_days`
(see `duration_below_min_bill_days_cex`). -/
theorem duration_monotone_and_amount_min (r : CsTariffRule) :
    (∀ h1 h2 : ℚ, 0 ≤ h1 → h1 ≤ h2 →
      compute_duration_days r h1 ≤ compute_duration_days r h2) ∧
    (∀ line : CsStorageIntakeLine, r.min_bill_days ≤ (compute_amount r line).2) := by
  constructor
  · intro h1 h2 h0 h12
    cases hp : r.rounding_policy
    case ceil_day =>
      simp only [compute_duration_days, hp, pyMax_eq_max]
      gcongr
    case half_up =>
      simp only [compute_duration_days, hp]
      have hd : h1 / 24 ≤ h2 / 24 := by gcongr
      split_ifs <;> linarith
    case exact_hours =>
      simp only [compute_duration_days, hp]
      unfold pyRound2
      have hm : roundHalfEven (h1 / 24 * 100) ≤ roundHalfEven (h2 / 24 * 100) := by
        apply roundHalfEven_mono
        gcongr
      gcongr
    case two_h_step =>
      simp only [compute_duration_days, hp]
      unfold pyFloorDiv pyInt
      rw [if_pos h0, if_pos (le_trans h0 h12)]
      have m1 : (⌊h1⌋ : ℤ) ≤ ⌊h2⌋ := Int.floor_le_floor h12
      have m2 : (⌊((⌊h1⌋ + 1 : ℤ) : ℚ) / (2 : ℤ)⌋ : ℤ) ≤ ⌊((⌊h2⌋ + 1 : ℤ) : ℚ) / (2 : ℤ)⌋ := by
        apply Int.floor_le_floor
        gcongr
      gcongr
  · intro line
    simp only [compute_amount, pyMax_eq_max]
    exact le_max_right _ _

/-- Witness for `duration_monotone_and_amount_min` at `rule_w`, hours 1 and
2, and the line `line_w`. -/
theorem duration_monotone_and_amount_min_witness :
    ((0:ℚ) ≤ 1 ∧ (1:ℚ) ≤ 2) ∧
    compute_duration_days rule_w 1 ≤ compute_duration_days rule_w 2 ∧
    rule_w.min_bill_days ≤ (compute_amount rule_w line_w).2 :=
  ⟨⟨by norm_num, by norm_num⟩,
    (duration_monotone_and_amount_min rule_w).1 1 2 (by norm_num) (by norm_num),
    (duration_monotone_and_amount_min rule_w).2 line_w⟩

/-- C9.  The release charge of `_compute_amount_line` is the pro-rata share
`subtotal * (qty_out / qty_in)` of the intake line's lifetime subtotal
whenever `qty_in` is positive, and is exactly zero when `qty_in` is zero:
the zero branch is explicit in the code, so the computation is total and
never divides by zero. -/
theorem release_amount_pro_rata (l : CsStorageIntakeLine) (q : ℚ) :
    (0 < l.qty_in → compute_amount_line l q = l.amount_subtotal * (q / l.qty_in)) ∧
    (l.qty_in = 0 → compute_amount_line l q = 0) := by
  constructor
  · intro h
    rw [compute_amount_line, if_pos h, mul_div_assoc]
  · intro h
    rw [compute_amount_line, if_neg (by rw [h]; exact lt_irrefl 0)]

/-- Witness for `release_amount_pro_rata`: a line with `qty_in = 4` and
subtotal 10 releasing 1 unit, and a line with `qty_in` forced to 0. -/
theorem release_amount_pro_rata_witness :
    ((0:ℚ) < line_q4.qty_in ∧
      compute_amount_line line_q4 1 = line_q4.amount_subtotal * (1 / line_q4.qty_in)) ∧
    (line_q0.qty_in = 0 ∧ compute_amount_line line_q0 1 = 0) :=
  ⟨⟨by norm_num [line_q4, line_w],
    (release_amount_pro_rata line_q4 1).1 (by norm_num [line_q4, line_w])⟩,
   ⟨rfl, (release_amount_pro_rata line_q0 1).2 rfl⟩⟩

/-- Processing the release lines of a release that takes every referenced
intake line from untouched (`qty_out = 0`) to exactly fully released
(`qty_out` becomes `qty_in`) succeeds and never changes the intake state:
every line falls in the `pass` branch of `action_validate`.  Referenced
indices end fully released; all others are untouched. -/
theorem validate_fold_full (rls : List ReleaseLineSpec) :
    ∀ (st : IntakeState) (lines : List CsStorageIntakeLine),
    (rls.map ReleaseLineSpec.intake_line_index).Nodup →
    (∀ r ∈ rls, ∃ l, lines[r.intake_line_index]? = some l ∧
      l.qty_out = 0 ∧ r.qty_out = l.qty_in) →
    ∃ lines2,
      List.foldlM apply_release_line (st, lines) rls = .ok (st, lines2) ∧
      lines2.length = lines.length ∧
      (∀ j, (∃ r ∈ rls, r.intake_line_index = j) →
        ∀ l, lines2[j]? = some l → l.qty_out = l.qty_in) ∧
      (∀ j, (¬ ∃ r ∈ rls, r.intake_line_index = j) → lines2[j]? = lines[j]?) := by
  induction rls with
  | nil =>
      intro st lines _ _
      exact ⟨lines, rfl, rfl, by simp, fun _ _ => rfl⟩
  | cons r rest ih =>
      intro st lines hnd hfull
      obtain ⟨l, hl, hl0, hlq⟩ := hfull r (List.mem_cons_self r rest)
      have hnew : l.qty_out + r.qty_out = l.qty_in := by rw [hl0, hlq, zero_add]
      have hidx : r.intake_line_index < lines.length := (List.getElem?_eq_some.mp hl).1
      have hstep : apply_release_line (st, lines) r =
          .ok (st, lines.set r.intake_line_index { l with qty_out := l.qty_in }) := by
        simp only [apply_release_line, hl, hnew]
        rw [if_neg (lt_irrefl _), if_pos le_rfl]
      have hnotin : r.intake_line_index ∉ rest.map ReleaseLineSpec.intake_line_index :=
        (List.nodup_cons.mp hnd).1
      have hnd2 : (rest.map ReleaseLineSpec.intake_line_index).Nodup :=
        (List.nodup_cons.mp hnd).2
      have hfull2 : ∀ r2 ∈ rest,
          ∃ l2, (lines.set r.intake_line_index
              { l with qty_out := l.qty_in })[r2.intake_line_index]? = some l2 ∧
            l2.qty_out = 0 ∧ r2.qty_out = l2.qty_in := by
        intro r2 hr2
        obtain ⟨l2, hl2, h20, h2q⟩ := hfull r2 (List.mem_cons_of_mem r hr2)
        have hne : r.intake_line_index ≠ r2.intake_line_index := by
          intro he
          exact hnotin (he ▸ List.mem_map_of_mem ReleaseLineSpec.intake_line_index hr2)
        exact ⟨l2, by rw [List.getElem?_set_ne hne]; exact hl2, h20, h2q⟩
      obtain ⟨lines2, hfold, hlen, hset, hunset⟩ :=
        ih st (lines.set r.intake_line_index { l with qty_out := l.qty_in }) hnd2 hfull2
      refine ⟨lines2, ?_, ?_, ?_, ?_⟩
      · rw [List.foldlM_cons, hstep]
        exact hfold
      · rw [hlen, List.length_set]
      · intro j hj l2 hl2
        obtain ⟨r2, hr2, hr2j⟩ := hj
        rcases List.mem_cons.mp hr2 with he | hmem
        · subst he
          subst hr2j
          have hjrest : ¬ ∃ r3 ∈ rest, r3.intake_line_index = r2.intake_line_index := by
            rintro ⟨r3, hr3, hr3j⟩
            exact hnotin (hr3j ▸ List.mem_map_of_mem ReleaseLineSpec.intake_line_index hr3)
          have := hunset r2.intake_line_index hjrest
          rw [this, List.getElem?_set_eq_of_lt _ hidx] at hl2
          cases hl2
          rfl
        · exact hset j ⟨r2, hmem, hr2j⟩ l2 hl2
      · intro j hj
        have hjrest : ¬ ∃ r3 ∈ rest, r3.intake_line_index = j := by
          rintro ⟨r3, hr3, hr3j⟩
          exact hj ⟨r3, List.mem_cons_of_mem r hr3, hr3j⟩
        have hjr : r.intake_line_index ≠ j := by
          intro he
          exact hj ⟨r, List.mem_cons_self r rest, he⟩
        rw [hunset j hjrest, List.getElem?_set_ne hjr]

/-- C10.  When a single validated release takes every line of a
`checked_in` intake from unreleased straight to fully released, every
release line hits the `new_qty_out >= qty_in` branch of `action_validate`,
which is `pass`: the intake is left in state `checked_in`, not
`partially_out`.  `action_close` then always raises its state error, since
it only accepts `partially_out` intakes — so such an intake can never be
closed. -/
theorem full_release_keeps_checked_in
    (lines : List CsStorageIntakeLine) (rls : List ReleaseLineSpec)
    (hne : rls ≠ [])
    (hnd : (rls.map ReleaseLineSpec.intake_line_index).Nodup)
    (hcover : ∀ j, j < lines.length → ∃ r ∈ rls, r.intake_line_index = j)
    (hfull : ∀ r ∈ rls, ∃ l, lines[r.intake_line_index]? = some l ∧
      l.qty_out = 0 ∧ r.qty_out = l.qty_in) :
    ∃ lines2,
      action_validate_release ReleaseState.draft rls (IntakeState.checked_in, lines) =
        .ok (IntakeState.checked_in, lines2) ∧
      (∀ l ∈ lines2, l.qty_out = l.qty_in) ∧
      action_close IntakeState.checked_in lines2 =
        .error "Only partially released intakes can be closed." := by
  obtain ⟨lines2, hfold, hlen, hset, _⟩ :=
    validate_fold_full rls IntakeState.checked_in lines hnd hfull
  refine ⟨lines2, ?_, ?_, ?_⟩
  · rw [action_validate_release, if_neg (by simp), if_neg hne]
    exact hfold
  · intro l hl
    obtain ⟨j, hj, he⟩ := List.getElem_of_mem hl
    have hjlt : j < lines.length := by rw [← hlen]; exact hj
    exact hset j (hcover j hjlt) l (by rw [List.getElem?_eq_getElem hj]; exact congrArg some he)
  · rw [action_close, if_pos (by simp)]

/-- Witness for `full_release_keeps_checked_in`: one 5-unit line, one
release line releasing all 5 units. -/
theorem full_release_keeps_checked_in_witness :
    (([⟨0, 5⟩] : List ReleaseLineSpec) ≠ [] ∧
      (([⟨0, 5⟩] : List ReleaseLineSpec).map ReleaseLineSpec.intake_line_index).Nodup) ∧
    ∃ lines2,
      action_validate_release ReleaseState.draft [⟨0, 5⟩]
          (IntakeState.checked_in, [line_c10]) = .ok (IntakeState.checked_in, lines2) ∧
      (∀ l ∈ lines2, l.qty_out = l.qty_in) ∧
      action_close IntakeState.checked_in lines2 =
        .error "Only partially released intakes can be closed." :=
  ⟨⟨by simp, by simp⟩,
    full_release_keeps_checked_in [line_c10] [⟨0, 5⟩] (by simp) (by simp)
      (by
        intro j hj
        exact ⟨⟨0, 5⟩, List.mem_singleton_self _, ((Nat.lt_one_iff.mp (by simpa using hj))).symm⟩)
      (by
        intro r hr
        rw [List.mem_singleton] at hr
        subst hr
        exact ⟨line_c10, rfl, rfl, rfl⟩)⟩

/-- C3 counterexample.  In `action_run_billing` the amount for an intake is
computed by `_calculate_period_amount(intake, billing_start, date_to)` —
the wizard's `date_from` is never passed, so the effective window start is
`billing_start`, not `max(date_from, billing_start)`.  For a never-billed
intake checked in on day 0 and a run with `date_from = 59`,
`date_to = 89`, the effective start is day 0 (≠ 59) and the period amount
covers roughly 90 days at 200 per day — far more than the 31-day window
amount of 6200 — i.e. days earlier than the run's `date_from` are
billed. -/
theorem effective_start_ignores_date_from_cex :
    period_start_date intake1 (billing_start intake1) = 0 ∧
    max 59 (billing_start intake1) = 59 ∧
    period_start_date intake1 (billing_start intake1) ≠ max 59 (billing_start intake1) ∧
    period_start_dt intake1 (billing_start intake1) < day_start 59 ∧
    (6200 : ℚ) < calculate_period_amount intake1 (billing_start intake1) 89 := by
  refine ⟨by decide, by decide, by decide, by decide, ?_⟩
  norm_num [calculate_period_amount, period_duration_days, period_start_dt,
    period_start_date, billing_start, date_of_datetime, usPerDay, day_start,
    end_of_day, line_period_amount, line_period_units, pyOr, pyMax, intake1,
    line_w, rule_w]

/-- C3 (amended).  The effective billing window start of the monthly run
equals `billing_start` itself (the watermark if set, else the check-in
date): `max` is taken against the intake's check-in date, which never
exceeds `billing_start` for any reachable watermark, and the run's
`date_from` does not enter the computation — whenever
`billing_start < date_from`, the effective start lies strictly before
`date_from` and earlier days are billed. -/
theorem effective_start_is_billing_start (k : CsStorageIntake)
    (hw : ∀ w, k.last_billed_date = some w → date_of_datetime k.date_in ≤ w) :
    period_start_date k (billing_start k) = billing_start k ∧
    ∀ f : ℤ, billing_start k < f → period_start_date k (billing_start k) < f := by
  have h1 : period_start_date k (billing_start k) = billing_start k := by
    rw [period_start_date]
    cases hk : k.last_billed_date with
    | none =>
        simp only [billing_start, hk]
        exact max_self _
    | some w =>
        simp only [billing_start, hk]
        exact max_eq_left (hw w hk)
  refine ⟨h1, fun f hf => ?_⟩
  rw [h1]
  exact hf

/-- Witness for `effective_start_is_billing_start` at the never-billed
intake `intake1`. -/
theorem effective_start_is_billing_start_witness :
    (∀ w : ℤ, intake1.last_billed_date = some w → date_of_datetime intake1.date_in ≤ w) ∧
    (period_start_date intake1 (billing_start intake1) = billing_start intake1 ∧
      ∀ f : ℤ, billing_start intake1 < f →
        period_start_date intake1 (billing_start intake1) < f) :=
  ⟨fun _ h => Option.noConfusion h,
    effective_start_is_billing_start intake1 (fun _ h => Option.noConfusion h)⟩

/-- C2 counterexample.  A first run over `[0, 30]` bills `intake1` from its
check-in timestamp up to `23:59:59.999999` on day 30 and advances the
watermark to 30 (yielding `intake1b`).  A second run with
`date_from' = 30` starts again at *midnight of day 30* — strictly before
the first run's period end — so calendar day 30 is billed by both runs:
the second run's amount exceeds 5600, the exact charge for the 28 days of
storage after the first run's period end (100 kg × 2 × 28). -/
theorem second_run_overlap_cex :
    advance_watermark intake1.id 30 [intake1] = [intake1b] ∧
    period_start_dt intake1 (billing_start intake1) = 0 ∧
    period_start_dt intake1b (billing_start intake1b) = day_start 30 ∧
    period_start_dt intake1b (billing_start intake1b) < end_of_day 30 ∧
    (5600 : ℚ) < calculate_period_amount intake1b (billing_start intake1b) 58 := by
  refine ⟨by decide, by decide, by decide, by decide, ?_⟩
  norm_num [calculate_period_amount, period_duration_days, period_start_dt,
    period_start_date, billing_start, date_of_datetime, usPerDay, day_start,
    end_of_day, line_period_amount, line_period_units, pyOr, pyMax, intake1b,
    intake1, line_w, rule_w]

/-- C2 (amended).  After a run advances an intake's watermark to `date_to`,
a second run starting at `date_from' = date_to` computes its period from
midnight of the watermark day (exactly the check-in timestamp in the
degenerate case where the watermark day is the check-in day): no day
strictly before `date_to` is re-billed, but the period still begins on day
`date_to` itself — at or before `23:59:59.999999` on `date_to`, the end of
the first run's period — so the watermark day is included in both runs. -/
theorem second_run_rebills_watermark_day (k : CsStorageIntake) (t : ℤ)
    (hwm : k.last_billed_date = some t) (hin : date_of_datetime k.date_in ≤ t) :
    day_start t ≤ period_start_dt k (billing_start k) ∧
    period_start_dt k (billing_start k) ≤ end_of_day t ∧
    (date_of_datetime k.date_in < t → period_start_dt k (billing_start k) = day_start t) := by
  have hb : billing_start k = t := by simp only [billing_start, hwm]
  have hpsd : period_start_date k t = t := by
    rw [period_start_date]
    exact max_eq_left hin
  rw [hb, period_start_dt, hpsd]
  by_cases he : t = date_of_datetime k.date_in
  · rw [if_pos he]
    refine ⟨?_, ?_, ?_⟩
    · rw [he]
      exact day_start_date_of_le k.date_in
    · have h2 := lt_day_start_succ k.date_in
      rw [← he] at h2
      simp only [day_start, end_of_day, usPerDay] at h2 ⊢
      omega
    · intro hlt
      omega
  · rw [if_neg he]
    refine ⟨le_refl _, ?_, fun _ => rfl⟩
    simp only [day_start, end_of_day, usPerDay]
    omega

/-- Witness for `second_run_rebills_watermark_day` at `intake1b`
(watermark day 30, checked in on day 0). -/
theorem second_run_rebills_watermark_day_witness :
    (intake1b.last_billed_date = some 30 ∧ date_of_datetime intake1b.date_in ≤ 30) ∧
    (day_start 30 ≤ period_start_dt intake1b (billing_start intake1b) ∧
      period_start_dt intake1b (billing_start intake1b) ≤ end_of_day 30 ∧
      (date_of_datetime intake1b.date_in < 30 →
        period_start_dt intake1b (billing_start intake1b) = day_start 30)) :=
  ⟨⟨rfl, by decide⟩, second_run_rebills_watermark_day intake1b 30 rfl (by decide)⟩

/-- A permutation of a sublist of a duplicate-free list is duplicate
free. -/
theorem nodup_of_subperm {l1 l2 : List ℕ} (h : List.Subperm l1 l2) (d : l2.Nodup) :
    l1.Nodup := by
  obtain ⟨l, hp, hs⟩ := h
  exact hp.nodup (hs.nodup d)

/-- `advance_watermark i` leaves the watermark of every other identifier
unchanged. -/
theorem wm_of_advance_ne (i j : ℕ) (d : ℤ) (st : List CsStorageIntake) (hij : j ≠ i) :
    wm_of (advance_watermark i d st) j = wm_of st j := by
  induction st with
  | nil => rfl
  | cons k rest ih =>
      simp only [advance_watermark, List.map_cons] at *
      by_cases hki : k.id = i
      · rw [if_pos hki]
        simp only [wm_of]
        rw [if_neg (by simpa [hki] using (fun he => hij he.symm)), if_neg (fun he => hij (hki ▸ he.symm))]
        exact ih
      · rw [if_neg hki]
        simp only [wm_of]
        by_cases hkj : k.id = j
        · rw [if_pos hkj, if_pos hkj]
        · rw [if_neg hkj, if_neg hkj]
          exact ih

/-- `advance_watermark i` maps the watermark of identifier `i` through
`fun _ => some d` (sets it when a record with that identifier exists). -/
theorem wm_of_advance_eq (i : ℕ) (d : ℤ) (st : List CsStorageIntake) :
    wm_of (advance_watermark i d st) i = (wm_of st i).map (fun _ => some d) := by
  induction st with
  | nil => rfl
  | cons k rest ih =>
      simp only [advance_watermark, List.map_cons] at *
      by_cases hki : k.id = i
      · rw [if_pos hki]
        simp only [wm_of]
        rw [if_pos hki, if_pos hki]
        rfl
      · rw [if_neg hki]
        simp only [wm_of]
        rw [if_neg hki, if_neg hki]
        exact ih

/-- `advance_group` leaves identifiers outside the group unchanged. -/
theorem wm_of_advance_group_not_mem (d : ℤ) (j : ℕ) :
    ∀ (ids : List ℕ) (st : List CsStorageIntake), j ∉ ids →
      wm_of (advance_group ids d st) j = wm_of st j := by
  intro ids
  induction ids with
  | nil => intro st _; rfl
  | cons a rest ih =>
      intro st hj
      have hja : j ≠ a := fun he => hj (he ▸ List.mem_cons_self a rest)
      have hjr : j ∉ rest := fun hr => hj (List.mem_cons_of_mem a hr)
      show wm_of (advance_group rest d (advance_watermark a d st)) j = wm_of st j
      rw [ih (advance_watermark a d st) hjr, wm_of_advance_ne a j d st hja]

/-- Once an identifier's watermark is `some d`, advancing any group with
the same date keeps it at `some d`. -/
theorem wm_of_advance_group_stable (d : ℤ) (j : ℕ) :
    ∀ (ids : List ℕ) (st : List CsStorageIntake), wm_of st j = some (some d) →
      wm_of (advance_group ids d st) j = some (some d) := by
  intro ids
  induction ids with
  | nil => intro st h; exact h
  | cons a rest ih =>
      intro st h
      show wm_of (advance_group rest d (advance_watermark a d st)) j = some (some d)
      apply ih
      by_cases hja : j = a
      · subst hja
        rw [wm_of_advance_eq j d st, h]
        rfl
      · rw [wm_of_advance_ne a j d st hja]
        exact h

/-- `advance_watermark` preserves whether an identifier is present. -/
theorem wm_of_advance_isSome (i j : ℕ) (d : ℤ) (st : List CsStorageIntake) :
    (wm_of (advance_watermark i d st) j).isSome = (wm_of st j).isSome := by
  by_cases hji : j = i
  · subst hji
    rw [wm_of_advance_eq j d st]
    cases wm_of st j <;> rfl
  · rw [wm_of_advance_ne i j d st hji]

/-- Advancing a group that contains a present identifier sets its
watermark to the run's `date_to`. -/
theorem wm_of_advance_group_mem (d : ℤ) (j : ℕ) :
    ∀ (ids : List ℕ) (st : List CsStorageIntake), j ∈ ids →
      (wm_of st j).isSome = true →
      wm_of (advance_group ids d st) j = some (some d) := by
  intro ids
  induction ids with
  | nil => intro st h; exact absurd h (List.not_mem_nil j)
  | cons a rest ih =>
      intro st hj hs
      show wm_of (advance_group rest d (advance_watermark a d st)) j = some (some d)
      by_cases hja : j = a
      · subst hja
        apply wm_of_advance_group_stable
        rw [wm_of_advance_eq j d st]
        obtain ⟨w, hw⟩ := Option.isSome_iff_exists.mp hs
        rw [hw]
        rfl
      · have hjr : j ∈ rest := by
          rcases List.mem_cons.mp hj with he | hr
          · exact absurd he hja
          · exact hr
        apply ih (advance_watermark a d st) hjr
        rw [wm_of_advance_isSome a j d st]
        exact hs

/-- An identifier that is a key of the record-set state has a readable
watermark. -/
theorem wm_of_isSome_of_mem (i : ℕ) :
    ∀ st : List CsStorageIntake, i ∈ st.map CsStorageIntake.id →
      (wm_of st i).isSome = true := by
  intro st
  induction st with
  | nil => intro h; exact absurd h (List.not_mem_nil i)
  | cons k rest ih =>
      intro h
      simp only [wm_of]
      by_cases hk : k.id = i
      · rw [if_pos hk]
        rfl
      · rw [if_neg hk]
        apply ih
        rw [List.map_cons] at h
        rcases List.mem_cons.mp h with he | hr
        · exact absurd he.symm hk
        · exact hr

/-- `advance_group` preserves whether an identifier is present. -/
theorem wm_of_advance_group_isSome (d : ℤ) (j : ℕ) :
    ∀ (ids : List ℕ) (st : List CsStorageIntake),
      (wm_of (advance_group ids d st) j).isSome = (wm_of st j).isSome := by
  intro ids
  induction ids with
  | nil => intro st; rfl
  | cons a rest ih =>
      intro st
      show (wm_of (advance_group rest d (advance_watermark a d st)) j).isSome = _
      rw [ih, wm_of_advance_isSome]

/-- A successful run of the invoice loop keeps every watermark already at
`some date_to` at `some date_to`. -/
theorem run_loop_ok_stable (ok : ℕ → Bool) (dto : ℤ) (j : ℕ) :
    ∀ (gs : List PartnerGroup) (st : List CsStorageIntake) (invs : List ℕ)
      (final : List CsStorageIntake),
      run_invoice_loop ok dto gs st = .ok (invs, final) →
      wm_of st j = some (some dto) →
      wm_of final j = some (some dto) := by
  intro gs
  induction gs with
  | nil =>
      intro st invs final hrun hst
      cases hrun
      exact hst
  | cons g rest ih =>
      intro st invs final hrun hst
      rw [run_invoice_loop] at hrun
      by_cases htot : 0 < g.total
      · rw [if_pos htot] at hrun
        by_cases hok : ok g.partner = true
        · rw [if_pos hok] at hrun
          cases hr : run_invoice_loop ok dto rest (advance_group g.intake_ids dto st) with
          | ok pr =>
              rw [hr] at hrun
              obtain ⟨invs2, stf⟩ := pr
              cases hrun
              exact ih (advance_group g.intake_ids dto st) invs2 final hr
                (wm_of_advance_group_stable dto j g.intake_ids st hst)
          | error e =>
              rw [hr] at hrun
              cases hrun
        · rw [if_neg hok] at hrun
          cases hrun
      · rw [if_neg htot] at hrun
        exact ih st invs final hrun hst

/-- A successful run of the invoice loop advances the watermark of every
present intake of every positive-total group to the run's `date_to`. -/
theorem run_loop_ok_advances (ok : ℕ → Bool) (dto : ℤ) :
    ∀ (gs : List PartnerGroup) (st : List CsStorageIntake) (invs : List ℕ)
      (final : List CsStorageIntake),
      run_invoice_loop ok dto gs st = .ok (invs, final) →
      ∀ g ∈ gs, 0 < g.total → ∀ i ∈ g.intake_ids, (wm_of st i).isSome = true →
        wm_of final i = some (some dto) := by
  intro gs
  induction gs with
  | nil =>
      intro st invs final _ g hg
      exact absurd hg (List.not_mem_nil g)
  | cons g0 rest ih =>
      intro st invs final hrun g hg htot i hi hsome
      rw [run_invoice_loop] at hrun
      by_cases htot0 : 0 < g0.total
      · rw [if_pos htot0] at hrun
        by_cases hok : ok g0.partner = true
        · rw [if_pos hok] at hrun
          cases hr : run_invoice_loop ok dto rest (advance_group g0.intake_ids dto st) with
          | ok pr =>
              rw [hr] at hrun
              obtain ⟨invs2, stf⟩ := pr
              cases hrun
              rcases List.mem_cons.mp hg with he | hmem
              · subst he
                exact run_loop_ok_stable ok dto i rest _ invs2 final hr
                  (wm_of_advance_group_mem dto i g.intake_ids st hi hsome)
              · exact ih (advance_group g0.intake_ids dto st) invs2 final hr g hmem htot i hi
                  (by rw [wm_of_advance_group_isSome dto i g0.intake_ids st]; exact hsome)
          | error e =>
              rw [hr] at hrun
              cases hrun
        · rw [if_neg hok] at hrun
          cases hrun
      · rw [if_neg htot0] at hrun
        rcases List.mem_cons.mp hg with he | hmem
        · subst he
          exact absurd htot htot0
        · exact ih st invs final hrun g hmem htot i hi hsome

/-- Identifiers outside every group of a prefix keep their watermark
through `prefix_advance`. -/
theorem wm_of_prefix_advance_not_mem (dto : ℤ) (j : ℕ) :
    ∀ (gs : List PartnerGroup) (st : List CsStorageIntake),
      j ∉ all_intake_ids gs →
      wm_of (prefix_advance dto gs st) j = wm_of st j := by
  intro gs
  induction gs with
  | nil => intro st _; rfl
  | cons g rest ih =>
      intro st hj
      have hjg : j ∉ g.intake_ids := by
        intro h
        exact hj (by
          simp only [all_intake_ids, List.map_cons, List.flatten_cons, List.mem_append]
          exact Or.inl h)
      have hjr : j ∉ all_intake_ids rest := by
        intro h
        exact hj (by
          simp only [all_intake_ids, List.map_cons, List.flatten_cons, List.mem_append]
          exact Or.inr (by simpa [all_intake_ids] using h))
      show wm_of (prefix_advance dto rest
        (if 0 < g.total then advance_group g.intake_ids dto st else st)) j = wm_of st j
      rw [ih _ hjr]
      by_cases htot : 0 < g.total
      · rw [if_pos htot]
        exact wm_of_advance_group_not_mem dto j g.intake_ids st hjg
      · rw [if_neg htot]

/-- A failing invoice loop fails at the first positive-total group whose
customer's invoice creation fails: the returned state is the prefix state
(earlier positive groups advanced), every earlier positive-total group
succeeded, and the loop never reached the groups after the failing one. -/
theorem run_loop_error_split (ok : ℕ → Bool) (dto : ℤ) :
    ∀ (gs : List PartnerGroup) (st : List CsStorageIntake) (p : ℕ)
      (stf : List CsStorageIntake),
      run_invoice_loop ok dto gs st = .error (p, stf) →
      ∃ gs1 g gs2, gs = gs1 ++ g :: gs2 ∧ g.partner = p ∧ 0 < g.total ∧
        ok g.partner = false ∧ stf = prefix_advance dto gs1 st ∧
        ∀ g2 ∈ gs1, 0 < g2.total → ok g2.partner = true := by
  intro gs
  induction gs with
  | nil =>
      intro st p stf hrun
      cases hrun
  | cons g rest ih =>
      intro st p stf hrun
      rw [run_invoice_loop] at hrun
      by_cases htot : 0 < g.total
      · rw [if_pos htot] at hrun
        by_cases hok : ok g.partner = true
        · rw [if_pos hok] at hrun
          cases hr : run_invoice_loop ok dto rest (advance_group g.intake_ids dto st) with
          | ok pr =>
              rw [hr] at hrun
              obtain ⟨invs2, stf2⟩ := pr
              cases hrun
          | error e =>
              rw [hr] at hrun
              cases hrun
              obtain ⟨gs1, g1, gs2, heq, hp, ht1, ho1, hstf, hpre⟩ :=
                ih (advance_group g.intake_ids dto st) p stf hr
              refine ⟨g :: gs1, g1, gs2, by rw [heq, List.cons_append], hp, ht1, ho1, ?_, ?_⟩
              · rw [hstf]
                show _ = prefix_advance dto gs1
                  (if 0 < g.total then advance_group g.intake_ids dto st else st)
                rw [if_pos htot]
              · intro g2 hg2 ht2
                rcases List.mem_cons.mp hg2 with he | hmem
                · subst he
                  exact hok
                · exact hpre g2 hmem ht2
        · rw [if_neg hok] at hrun
          cases hrun
          exact ⟨[], g, rest, rfl, rfl, htot, Bool.eq_false_iff.mpr hok, rfl,
            fun g2 hg2 _ => absurd hg2 (List.not_mem_nil g2)⟩
      · rw [if_neg htot] at hrun
        obtain ⟨gs1, g1, gs2, heq, hp, ht1, ho1, hstf, hpre⟩ := ih st p stf hrun
        refine ⟨g :: gs1, g1, gs2, by rw [heq, List.cons_append], hp, ht1, ho1, ?_, ?_⟩
        · rw [hstf]
          show _ = prefix_advance dto gs1
            (if 0 < g.total then advance_group g.intake_ids dto st else st)
          rw [if_neg htot]
        · intro g2 hg2 ht2
          rcases List.mem_cons.mp hg2 with he | hmem
          · subst he
            exact absurd ht2 htot
          · exact hpre g2 hmem ht2

/-- Appending a positive amount to `partner_data` keeps every group total
positive. -/
theorem add_to_partner_data_total_pos (p i : ℕ) (amt : ℚ) (hamt : 0 < amt) :
    ∀ gs : List PartnerGroup, (∀ g ∈ gs, 0 < g.total) →
      ∀ g ∈ add_to_partner_data p i amt gs, 0 < g.total := by
  intro gs
  induction gs with
  | nil =>
      intro _ g hg
      rw [add_to_partner_data] at hg
      rcases List.mem_singleton.mp hg with he
      rw [he]
      exact hamt
  | cons g0 rest ih =>
      intro hpos g hg
      rw [add_to_partner_data] at hg
      by_cases hp : g0.partner = p
      · rw [if_pos hp] at hg
        rcases List.mem_cons.mp hg with he | hmem
        · rw [he]
          have := hpos g0 (List.mem_cons_self g0 rest)
          show 0 < g0.total + amt
          linarith
        · exact hpos g (List.mem_cons_of_mem g0 hmem)
      · rw [if_neg hp] at hg
        rcases List.mem_cons.mp hg with he | hmem
        · rw [he]
          exact hpos g0 (List.mem_cons_self g0 rest)
        · exact ih (fun g2 hg2 => hpos g2 (List.mem_cons_of_mem g0 hg2)) g hmem

/-- Every group built by the `partner_data` grouping loop has a positive
total. -/
theorem build_partner_data_total_pos (dto : ℤ) :
    ∀ (l : List CsStorageIntake) (acc : List PartnerGroup),
      (∀ g ∈ acc, 0 < g.total) →
      ∀ g ∈ build_partner_data dto l acc, 0 < g.total := by
  intro l
  induction l with
  | nil =>
      intro acc hacc g hg
      exact hacc g hg
  | cons k rest ih =>
      intro acc hacc g hg
      rw [build_partner_data] at hg
      by_cases hbs : dto ≤ billing_start k
      · rw [if_pos hbs] at hg
        exact ih acc hacc g hg
      · rw [if_neg hbs] at hg
        by_cases hamt : 0 < calculate_period_amount k (billing_start k) dto
        · rw [if_pos hamt] at hg
          exact ih _ (add_to_partner_data_total_pos k.partner_id k.id _ hamt acc hacc) g hg
        · rw [if_neg hamt] at hg
          exact ih acc hacc g hg

/-- Appending one intake to `partner_data` adds exactly its identifier to
the groups' identifiers, up to permutation. -/
theorem add_to_partner_data_ids_perm (p i : ℕ) (amt : ℚ) :
    ∀ gs : List PartnerGroup,
      List.Perm (all_intake_ids (add_to_partner_data p i amt gs)) (i :: all_intake_ids gs) := by
  intro gs
  induction gs with
  | nil => simp [add_to_partner_data, all_intake_ids]
  | cons g0 rest ih =>
      rw [add_to_partner_data]
      by_cases hp : g0.partner = p
      · rw [if_pos hp]
        simp only [all_intake_ids, List.map_cons, List.flatten_cons, List.append_assoc,
          List.singleton_append]
        exact List.perm_middle
      · rw [if_neg hp]
        simp only [all_intake_ids, List.map_cons, List.flatten_cons]
        simp only [all_intake_ids] at ih
        exact (List.Perm.append_left g0.intake_ids ih).trans List.perm_middle

/-- The identifiers collected by the grouping loop are, up to order, a
subset (without repetition) of the processed intakes' identifiers together
with the accumulator's. -/
theorem build_partner_data_ids_subperm (dto : ℤ) :
    ∀ (l : List CsStorageIntake) (acc : List PartnerGroup),
      List.Subperm (all_intake_ids (build_partner_data dto l acc))
        (l.map CsStorageIntake.id ++ all_intake_ids acc) := by
  intro l
  induction l with
  | nil =>
      intro acc
      simp only [List.map_nil, List.nil_append, build_partner_data]
      exact List.Subperm.refl _
  | cons k rest ih =>
      intro acc
      rw [build_partner_data, List.map_cons]
      by_cases hbs : dto ≤ billing_start k
      · rw [if_pos hbs]
        exact (ih acc).trans (List.sublist_cons_self k.id _).subperm
      · rw [if_neg hbs]
        by_cases hamt : 0 < calculate_period_amount k (billing_start k) dto
        · rw [if_pos hamt]
          have hperm := add_to_partner_data_ids_perm k.partner_id k.id
            (calculate_period_amount k (billing_start k) dto) acc
          exact ((ih _).trans
            (List.Perm.append_left (rest.map CsStorageIntake.id) hperm).subperm).trans
            List.perm_middle.subperm
        · rw [if_neg hamt]
          exact (ih acc).trans (List.sublist_cons_self k.id _).subperm

/-- Appending an intake to `partner_data` either reuses an existing
customer entry or appends a new customer at the end. -/
theorem add_to_partner_data_partners (p i : ℕ) (amt : ℚ) :
    ∀ gs : List PartnerGroup,
      (add_to_partner_data p i amt gs).map PartnerGroup.partner =
        (if p ∈ gs.map PartnerGroup.partner then gs.map PartnerGroup.partner
          else gs.map PartnerGroup.partner ++ [p]) := by
  intro gs
  induction gs with
  | nil => simp [add_to_partner_data]
  | cons g0 rest ih =>
      rw [add_to_partner_data]
      by_cases hp : g0.partner = p
      · rw [if_pos hp]
        have hcond : p ∈ (g0 :: rest).map PartnerGroup.partner := by
          rw [List.map_cons, hp]
          exact List.mem_cons_self _ _
        rw [if_pos hcond]
        rfl
      · rw [if_neg hp, List.map_cons, List.map_cons, ih]
        by_cases hmem : p ∈ rest.map PartnerGroup.partner
        · rw [if_pos hmem, if_pos (List.mem_cons_of_mem _ hmem)]
        · rw [if_neg hmem, if_neg (by
            intro hc
            rcases List.mem_cons.mp hc with he | hm
            · exact hp he.symm
            · exact hmem hm)]
          rw [List.cons_append]

/-- The customers of the groups built by the grouping loop are pairwise
distinct (a Python dict has unique keys). -/
theorem build_partner_data_partners_nodup (dto : ℤ) :
    ∀ (l : List CsStorageIntake) (acc : List PartnerGroup),
      (acc.map PartnerGroup.partner).Nodup →
      ((build_partner_data dto l acc).map PartnerGroup.partner).Nodup := by
  intro l
  induction l with
  | nil =>
      intro acc hacc
      exact hacc
  | cons k rest ih =>
      intro acc hacc
      rw [build_partner_data]
      by_cases hbs : dto ≤ billing_start k
      · rw [if_pos hbs]
        exact ih acc hacc
      · rw [if_neg hbs]
        by_cases hamt : 0 < calculate_period_amount k (billing_start k) dto
        · rw [if_pos hamt]
          apply ih
          rw [add_to_partner_data_partners]
          by_cases hmem : k.partner_id ∈ acc.map PartnerGroup.partner
          · rw [if_pos hmem]
            exact hacc
          · rw [if_neg hmem]
            simp only [List.nodup_append, List.nodup_cons, List.nodup_nil, and_true,
              List.not_mem_nil, not_false_iff, List.disjoint_singleton]
            exact ⟨hacc, trivial, hmem⟩
        · rw [if_neg hamt]
          exact ih acc hacc

/-- Concrete run: with customers 1 and 2 both eligible and invoice
creation failing for customer 1, the billing loop aborts before touching
any record. -/
theorem run_cex_eval :
    action_run_billing_loop (fun p => p != 1) 30 [intake1, intake2] =
      .error (1, [intake1, intake2]) := by
  norm_num [action_run_billing_loop, build_partner_data, run_invoice_loop,
    billing_start, calculate_period_amount, period_duration_days, period_start_dt,
    period_start_date, date_of_datetime, usPerDay, day_start, end_of_day,
    line_period_amount, line_period_units, pyOr, pyMax, add_to_partner_data,
    advance_group, advance_watermark, intake1, intake2, line_w, rule_w]

/-- Concrete grouping: customers 1 and 2 each have one eligible intake
with a positive period amount. -/
theorem build_cex_eval :
    build_partner_data 30 [intake1, intake2] [] =
      [⟨1, [1], 2678399999999/432000000⟩, ⟨2, [2], 2678399999999/432000000⟩] := by
  norm_num [build_partner_data, billing_start, calculate_period_amount,
    period_duration_days, period_start_dt, period_start_date, date_of_datetime,
    usPerDay, day_start, end_of_day, line_period_amount, line_period_units,
    pyOr, pyMax, add_to_partner_data, intake1, intake2, line_w, rule_w]

/-- C1.  In a billing run with invoice creation enabled, watermark
advancement is transactional with invoice creation: if the run succeeds,
every intake of every customer group has its watermark advanced to the
run's `date_to` (the per-customer advance happens right after that
customer's invoice is created); if the run fails on some customer, that
customer's intakes keep exactly the watermark they had when the run
started — the advance is only executed after `_create_partner_invoice`
returns. -/
theorem billing_run_watermark_transactional (ok : ℕ → Bool) (dto : ℤ)
    (intakes : List CsStorageIntake)
    (hnd : (intakes.map CsStorageIntake.id).Nodup) :
    (∀ invs final, action_run_billing_loop ok dto intakes = .ok (invs, final) →
      ∀ g ∈ build_partner_data dto intakes [], ∀ i ∈ g.intake_ids,
        wm_of final i = some (some dto)) ∧
    (∀ p stf, action_run_billing_loop ok dto intakes = .error (p, stf) →
      ∀ g ∈ build_partner_data dto intakes [], g.partner = p →
        ∀ i ∈ g.intake_ids, wm_of stf i = wm_of intakes i) := by
  have hsub : List.Subperm (all_intake_ids (build_partner_data dto intakes []))
      (intakes.map CsStorageIntake.id) := by
    have h := build_partner_data_ids_subperm dto intakes []
    simpa [all_intake_ids] using h
  have htot : ∀ g ∈ build_partner_data dto intakes [], 0 < g.total :=
    build_partner_data_total_pos dto intakes [] (fun g hg => absurd hg (List.not_mem_nil g))
  constructor
  · intro invs final hrun g hg i hi
    have hmemall : i ∈ all_intake_ids (build_partner_data dto intakes []) := by
      simp only [all_intake_ids]
      exact List.mem_flatten.mpr ⟨g.intake_ids, List.mem_map_of_mem _ hg, hi⟩
    have hmem : i ∈ intakes.map CsStorageIntake.id := hsub.subset hmemall
    exact run_loop_ok_advances ok dto (build_partner_data dto intakes []) intakes invs final
      hrun g hg (htot g hg) i hi (wm_of_isSome_of_mem i intakes hmem)
  · intro p stf hrun g hg hgp i hi
    obtain ⟨gs1, gf, gs2, heq, hpf, htf, hof, hstf, hpre⟩ :=
      run_loop_error_split ok dto (build_partner_data dto intakes []) intakes p stf hrun
    have hnodall : (all_intake_ids (build_partner_data dto intakes [])).Nodup :=
      nodup_of_subperm hsub hnd
    have hpnodup : ((build_partner_data dto intakes []).map PartnerGroup.partner).Nodup :=
      build_partner_data_partners_nodup dto intakes [] (by simp)
    have hgf_mem : gf ∈ build_partner_data dto intakes [] := by
      rw [heq]
      exact List.mem_append_right gs1 (List.mem_cons_self gf gs2)
    have hguniq : g = gf :=
      List.inj_on_of_nodup_map hpnodup hg hgf_mem (by rw [hgp, hpf])
    rw [hstf]
    apply wm_of_prefix_advance_not_mem
    have hsplit : all_intake_ids (build_partner_data dto intakes []) =
        all_intake_ids gs1 ++ all_intake_ids (gf :: gs2) := by
      rw [heq]
      simp [all_intake_ids]
    rw [hsplit] at hnodall
    intro hin1
    have hmem2 : i ∈ all_intake_ids (gf :: gs2) := by
      simp only [all_intake_ids]
      exact List.mem_flatten.mpr
        ⟨gf.intake_ids, List.mem_map_of_mem _ (List.mem_cons_self gf gs2), hguniq ▸ hi⟩
    exact (List.nodup_append.mp hnodall).2.2 hin1 hmem2

/-- Witness for `billing_run_watermark_transactional`: customers 1 and 2,
invoice creation succeeding for every customer. -/
theorem billing_run_watermark_transactional_witness :
    ([intake1, intake2].map CsStorageIntake.id).Nodup ∧
    ((∀ invs final,
        action_run_billing_loop (fun _ => true) 30 [intake1, intake2] = .ok (invs, final) →
        ∀ g ∈ build_partner_data 30 [intake1, intake2] [], ∀ i ∈ g.intake_ids,
          wm_of final i = some (some 30)) ∧
      (∀ p stf,
        action_run_billing_loop (fun _ => true) 30 [intake1, intake2] = .error (p, stf) →
        ∀ g ∈ build_partner_data 30 [intake1, intake2] [], g.partner = p →
          ∀ i ∈ g.intake_ids, wm_of stf i = wm_of [intake1, intake2] i)) :=
  ⟨by decide,
    billing_run_watermark_transactional (fun _ => true) 30 [intake1, intake2] (by decide)⟩

/-- C4 counterexample.  `action_run_billing` has no `try/except` around
`_create_partner_invoice`: customers 1 and 2 are both eligible with
positive period amounts, invoice creation fails for customer 1, and the
whole run aborts with that exception — customer 2 is never billed (its
intake's watermark is still unset in the state carried by the error), so a
failure for one customer does prevent the remaining customers from being
billed. -/
theorem failure_blocks_remaining_customers_cex :
    build_partner_data 30 [intake1, intake2] [] =
      [⟨1, [1], 2678399999999/432000000⟩, ⟨2, [2], 2678399999999/432000000⟩] ∧
    action_run_billing_loop (fun p => p != 1) 30 [intake1, intake2] =
      .error (1, [intake1, intake2]) ∧
    wm_of [intake1, intake2] 2 = some none :=
  ⟨build_cex_eval, run_cex_eval, by decide⟩

/-- C4 (amended).  A failing invoice creation for one customer aborts the
run at that customer: the exception propagates (the failure is reported,
not swallowed — the error carries the failing customer), and neither the
failing customer's intakes nor those of any customer group after it have
their watermarks advanced; only groups before the failure point were
processed. -/
theorem failure_aborts_billing_run (ok : ℕ → Bool) (dto : ℤ)
    (intakes : List CsStorageIntake)
    (hnd : (intakes.map CsStorageIntake.id).Nodup)
    (p : ℕ) (stf : List CsStorageIntake)
    (herr : action_run_billing_loop ok dto intakes = .error (p, stf)) :
    ok p = false ∧
    ∃ gs1 g gs2, build_partner_data dto intakes [] = gs1 ++ g :: gs2 ∧
      g.partner = p ∧ 0 < g.total ∧
      ∀ g2 ∈ g :: gs2, ∀ i ∈ g2.intake_ids, wm_of stf i = wm_of intakes i := by
  obtain ⟨gs1, gf, gs2, heq, hpf, htf, hof, hstf, hpre⟩ :=
    run_loop_error_split ok dto (build_partner_data dto intakes []) intakes p stf herr
  have hsub : List.Subperm (all_intake_ids (build_partner_data dto intakes []))
      (intakes.map CsStorageIntake.id) := by
    have h := build_partner_data_ids_subperm dto intakes []
    simpa [all_intake_ids] using h
  have hnodall : (all_intake_ids (build_partner_data dto intakes [])).Nodup :=
    nodup_of_subperm hsub hnd
  refine ⟨hpf ▸ hof, gs1, gf, gs2, heq, hpf, htf, ?_⟩
  intro g2 hg2 i hi
  rw [hstf]
  apply wm_of_prefix_advance_not_mem
  have hsplit : all_intake_ids (build_partner_data dto intakes []) =
      all_intake_ids gs1 ++ all_intake_ids (gf :: gs2) := by
    rw [heq]
    simp [all_intake_ids]
  rw [hsplit] at hnodall
  intro hin1
  have hmem2 : i ∈ all_intake_ids (gf :: gs2) := by
    simp only [all_intake_ids]
    exact List.mem_flatten.mpr ⟨g2.intake_ids, List.mem_map_of_mem _ hg2, hi⟩
  exact (List.nodup_append.mp hnodall).2.2 hin1 hmem2

/-- Witness for `failure_aborts_billing_run` at the concrete failing run of
`run_cex_eval`. -/
theorem failure_aborts_billing_run_witness :
    (([intake1, intake2].map CsStorageIntake.id).Nodup ∧
      action_run_billing_loop (fun p => p != 1) 30 [intake1, intake2] =
        .error (1, [intake1, intake2])) ∧
    ((fun p => p != 1 : ℕ → Bool) 1 = false ∧
      ∃ gs1 g gs2, build_partner_data 30 [intake1, intake2] [] = gs1 ++ g :: gs2 ∧
        g.partner = 1 ∧ 0 < g.total ∧
        ∀ g2 ∈ g :: gs2, ∀ i ∈ g2.intake_ids,
          wm_of [intake1, intake2] i = wm_of [intake1, intake2] i) :=
  ⟨⟨by decide, run_cex_eval⟩,
    failure_aborts_billing_run (fun p => p != 1) 30 [intake1, intake2] (by decide) 1
      [intake1, intake2] run_cex_eval⟩
